import Mathlib

/-!
Verification of the PolyglotEngine document-tree pipeline.

This file gives a shallow embedding, in Lean 4, of the core pure logic of the
PolyglotEngine sources:

* `src/start-translation/main.js` — stage A: discovery (`retrieveSubpages`),
  section-number parsing (`parsePagePath`), the content transform template-token
  rewrite (`processPageContents`), the tree flattener
  (`createFlatPageMetadataList`), the exporter (`uploadLibreText`) and the
  driver (`startTranslation`).
* `src/unnamed/part_001` — stage B: job correlation
  (`retrieveTranslationJobDetails`), tree reconstruction (`mergeInputStructure`,
  `createPageStructure`) and the hierarchical writer (`saveToLibrary`,
  `assembleUrl`).

JavaScript strings are modelled as Lean `String`/`List Char`; the JS string
methods used by the sources (`split`, `replace`, `replaceAll`, `trim`,
`endsWith`) are re-implemented below at the `List Char` level with JS
semantics, because the corresponding Lean core functions do not reduce inside
the kernel.  Network/storage effects are modelled by explicit environment
records; trees returned by the content platform are modelled by the inductive
`RawTree`.
-/

/-- JS character-level `String.prototype.split` with a non-empty separator.
`acc` holds the current segment in reverse.  `fuel` only forces structural
termination; `fuel = length of remaining input` always suffices. -/
def splitOnAuxL : Nat → List Char → List Char → List Char → List (List Char)
  | 0, _, acc, rest => [acc.reverse ++ rest]
  | fuel + 1, sep, acc, rest =>
    match rest with
    | [] => [acc.reverse]
    | c :: cs =>
      if sep.isPrefixOf (c :: cs) then
        acc.reverse :: splitOnAuxL fuel sep [] (List.drop sep.length (c :: cs))
      else
        splitOnAuxL fuel sep (c :: acc) cs

/-- JS `s.split(sep)` for a non-empty literal separator. -/
def splitOnS (s sep : String) : List String :=
  (splitOnAuxL (s.data.length + 1) sep.data [] s.data).map fun l => ⟨l⟩

/-- JS character-level `String.prototype.replaceAll` with literal pattern. -/
def replaceAllAuxL : Nat → List Char → List Char → List Char → List Char
  | 0, _, _, rest => rest
  | fuel + 1, pat, rep, rest =>
    match rest with
    | [] => []
    | c :: cs =>
      if pat.isPrefixOf (c :: cs) then
        rep ++ replaceAllAuxL fuel pat rep (List.drop pat.length (c :: cs))
      else
        c :: replaceAllAuxL fuel pat rep cs

/-- JS `s.replaceAll(pat, rep)` for a non-empty literal pattern. -/
def replaceAllS (s pat rep : String) : String :=
  ⟨replaceAllAuxL (s.data.length + 1) pat.data rep.data s.data⟩

/-- JS character-level `String.prototype.replace` (first occurrence only). -/
def replaceFirstAuxL (pat rep : List Char) : List Char → List Char
  | [] => []
  | c :: cs =>
    if pat.isPrefixOf (c :: cs) then
      rep ++ List.drop pat.length (c :: cs)
    else
      c :: replaceFirstAuxL pat rep cs

/-- JS `s.replace(pat, rep)` for a literal pattern (first occurrence only). -/
def replaceFirstS (s pat rep : String) : String :=
  ⟨replaceFirstAuxL pat.data rep.data s.data⟩

/-- JS `String.prototype.trim` on character lists. -/
def trimL (l : List Char) : List Char :=
  ((l.dropWhile Char.isWhitespace).reverse.dropWhile Char.isWhitespace).reverse

/-- JS `s.trim()`. -/
def trimS (s : String) : String := ⟨trimL s.data⟩

/-- JS `s.endsWith(suffix)`. -/
def endsWithS (s suf : String) : Bool :=
  suf.data.reverse.isPrefixOf s.data.reverse

/-- Embeds `isNonEmptyString` (both source files): the argument is a string and
its trimmed length is positive.  The `typeof` check is vacuous for `String`. -/
def isNonEmptyString (s : String) : Bool :=
  (trimS s).data.length > 0

/-- Does the character list contain two consecutive `z`s?  Together with
`Char.isDigit` this embeds the JS regex test `/(\d|zz)/.test(s)` used by
`parsePagePath` ("zz" marks back-matter numbering). -/
def containsZZ : List Char → Bool
  | [] => false
  | 'z' :: 'z' :: _ => true
  | _ :: rest => containsZZ rest

/-- The JS regex test `/(\d|zz)/.test(s)`: `s` contains an ASCII digit or the
substring "zz". -/
def numberPartTest (s : String) : Bool :=
  s.data.any (·.isDigit) || containsZZ s.data

/-- Embeds `parsePagePath` (src/start-translation/main.js lines 148-160).
The JS 3-tuple `[success, numberPart, titlePart]` is modelled as
`Option (String × String)`: `some (urlNumPrefix, urlTitleExtract)` on success,
`none` when the final path segment has no "%3A" delimiter or the part before
it matches neither a digit nor the back-matter token. -/
def parsePagePath (path : String) : Option (String × String) :=
  let splitPath := splitOnS path "/"
  let relativePath := splitPath.getLastD ""
  let splitPagePath := splitOnS relativePath "%3A"
  let numberPart := splitPagePath.headD ""
  if splitPagePath.length > 1 && numberPartTest numberPart then
    some (numberPart, trimS (replaceAllS ((splitPagePath[1]?).getD "") "_" " "))
  else
    none

/-- C6: section-number parsing of a page path.  For `"2.03%3ASome_Title"` the
parser succeeds with number prefix `"2.03"` and extracted title
`"Some Title"` (underscores restored to spaces); for `"Overview"`, which has
no `%3A` delimiter, it fails. -/
theorem parsePagePath_examples :
    parsePagePath "2.03%3ASome_Title" = some ("2.03", "Some Title") ∧
    parsePagePath "Overview" = none := by
  constructor <;> decide

/-- A CXone Expert page property (name/value pair), as in the `PageProp`
typedef of the sources. -/
structure PageProp where
  name : String
  value : String
deriving Repr, DecidableEq

/-- One entry of the flat page-metadata list (`allPages`): a `LibrePage`
after `createFlatPageMetadataList` has deleted its `contents` and `subpages`
fields.  `urlNumPfx` models the source field `urlNumPrefix`.  `parent` is
`none` exactly when the JS field is `null` (root). -/
structure FlatPage where
  lib : String
  id : String
  url : String
  title : String
  tags : List String
  props : List PageProp
  path : String
  urlNumPfx : Option String
  urlTitleExtract : Option String
  summary : Option String
  root : Bool
  parent : Option String
deriving Repr, DecidableEq

/-- Page data as served by the content platform for one page, before the
discoverer assigns `root`/`parent` and derives the section-number hints:
identity, URL, title, tags, and the enrichment (`contents`, `summary`,
`props`) later added in place by `getSubpageContents`. -/
structure RawMeta where
  lib : String
  id : String
  url : String
  title : String
  tags : List String
  props : List PageProp
  path : String
  summary : Option String
  contents : Option String
deriving Repr, DecidableEq

/-- The page hierarchy as served by the content platform: a rose tree of
`RawMeta`.  The platform is assumed to return a finite tree (spec §9). -/
inductive RawTree where
  | mk (meta : RawMeta) (subs : List RawTree)
deriving Repr

/-- The in-memory page tree built by stage A (the `LibrePage` objects of
`retrieveSubpages` after content enrichment): flat metadata plus `contents`
plus owned subpages. -/
inductive PageNode where
  | mk (flat : FlatPage) (contents : Option String) (subpages : List PageNode)
deriving Repr

/-- The metadata part of a node. -/
def PageNode.flat : PageNode → FlatPage
  | .mk f _ _ => f

/-- The subpages of a node. -/
def PageNode.subpages : PageNode → List PageNode
  | .mk _ _ s => s

/-- The root metadata of a raw tree. -/
def RawTree.meta : RawTree → RawMeta
  | .mk m _ => m

mutual
/-- Embeds the node assembly of `retrieveSubpages`
(src/start-translation/main.js lines 259-283): each node gets the platform
metadata, the section-number hints parsed from its path, and
`root := (parent absent)`, `parent := parent id`; children are built with the
current page id as parent.  Content enrichment (`getSubpageContents`) is
modelled by carrying `contents`/`summary`/`props` through from `RawMeta`.
Network failures are not modelled here (every fetch succeeds). -/
def buildNode (parentId : Option String) : RawTree → PageNode
  | .mk m subs =>
    .mk
      { lib := m.lib
        id := m.id
        url := m.url
        title := m.title
        tags := m.tags
        props := m.props
        path := m.path
        urlNumPfx := (parsePagePath m.path).map (·.1)
        urlTitleExtract := (parsePagePath m.path).map (·.2)
        summary := m.summary
        root := parentId.isNone
        parent := parentId }
      m.contents
      (buildNodeList (some m.id) subs)

/-- Children of a node, built in order with the parent id. -/
def buildNodeList (parentId : Option String) : List RawTree → List PageNode
  | [] => []
  | t :: ts => buildNode parentId t :: buildNodeList parentId ts
end

/-- Embeds the overall result of `retrieveSubpages` called on a root
(`parent = null`): the root node must carry the `coverpage:yes` tag, otherwise
the function throws and the caller receives `null`
(src/start-translation/main.js lines 277-282). -/
def retrieveSubpages (t : RawTree) : Option PageNode :=
  let node := buildNode none t
  if node.flat.tags.contains "coverpage:yes" then some node else none

mutual
/-- Embeds `createFlatPageMetadataList` (src/start-translation/main.js lines
504-516): the pre-order flat metadata list.  In JS the per-node entry is the
node object itself after `delete pageData.contents; delete pageData.subpages`,
and the current node is prepended (`unshift`) to the concatenation of the
children's flattened lists.  The in-place `delete` side effect on the input is
modelled separately by `createFlatPageMetadataListEffect`. -/
def createFlatPageMetadataList : PageNode → List FlatPage
  | .mk flat _ subs => flat :: flattenSubpageList subs

/-- Concatenation of the flattened lists of a list of subtrees, in order. -/
def flattenSubpageList : List PageNode → List FlatPage
  | [] => []
  | p :: ps => createFlatPageMetadataList p ++ flattenSubpageList ps
end

/-- The state of the argument object after `createFlatPageMetadataList`
returns: lines 512-513 of src/start-translation/main.js execute
`delete pageData.contents; delete pageData.subpages` on the input node, so the
caller's tree root has lost its contents and its children. -/
def createFlatPageMetadataListEffect : PageNode → PageNode
  | .mk flat _ _ => .mk flat none []

mutual
/-- Total node count of a raw tree. -/
def nodeCount : RawTree → Nat
  | .mk _ subs => 1 + nodeCountList subs

/-- Total node count of a list of raw trees. -/
def nodeCountList : List RawTree → Nat
  | [] => 0
  | t :: ts => nodeCount t + nodeCountList ts
end

mutual
/-- Pre-order listing of the nodes of a page tree: each node before its
children.  Spec-side definition used to state what the flattener returns. -/
def preorderNodes : PageNode → List PageNode
  | .mk f c subs => .mk f c subs :: preorderNodesList subs

/-- Pre-order listing of a forest, in order. -/
def preorderNodesList : List PageNode → List PageNode
  | [] => []
  | p :: ps => preorderNodes p ++ preorderNodesList ps
end

mutual
theorem createFlatPageMetadataList_eq_preorder (t : PageNode) :
    createFlatPageMetadataList t = (preorderNodes t).map PageNode.flat := by
  cases t with
  | mk f c subs =>
    simp [createFlatPageMetadataList, preorderNodes, PageNode.flat,
      flattenSubpageList_eq_preorder subs]

theorem flattenSubpageList_eq_preorder (l : List PageNode) :
    flattenSubpageList l = (preorderNodesList l).map PageNode.flat := by
  cases l with
  | nil => simp [flattenSubpageList, preorderNodesList]
  | cons p ps =>
    simp [flattenSubpageList, preorderNodesList,
      createFlatPageMetadataList_eq_preorder p, flattenSubpageList_eq_preorder ps]
end

/-- C4 (amended): the flattener returns the pre-order list of the tree's nodes
(each node before its children) with `contents` and `subpages` removed from
every entry (`PageNode.flat` is exactly the node minus those two fields).  The
original claim's purity part is false: the call also strips the input tree in
place (see `createFlatPageMetadataListEffect_not_pure`). -/
theorem createFlatPageMetadataList_preorder (t : PageNode) :
    createFlatPageMetadataList t = (preorderNodes t).map PageNode.flat :=
  createFlatPageMetadataList_eq_preorder t

/-- A two-node example tree used to exhibit the flattener's mutation of its
input. -/
def exMutChild : PageNode :=
  .mk
    { lib := "chem", id := "11", url := "u1", title := "Child", tags := []
      props := [], path := "p1", urlNumPfx := none, urlTitleExtract := none
      summary := none, root := false, parent := some "10" }
    (some "<p>child</p>") []

/-- Root of the mutation example: has contents and one subpage. -/
def exMutTree : PageNode :=
  .mk
    { lib := "chem", id := "10", url := "u0", title := "Root", tags := ["coverpage:yes"]
      props := [], path := "p0", urlNumPfx := none, urlTitleExtract := none
      summary := none, root := true, parent := none }
    (some "<p>root</p>") [exMutChild]

/-- C4 (counterexample): the flattener is not a pure function that leaves its
input unmodified — after the call the input root object has lost its
`contents` and its `subpages` (the JS `delete` statements), so the post-call
state of a tree with contents and one child differs from the tree itself. -/
theorem createFlatPageMetadataListEffect_not_pure :
    createFlatPageMetadataListEffect exMutTree ≠ exMutTree := by
  simp [createFlatPageMetadataListEffect, exMutTree]

mutual
theorem flatten_buildNode_length (pid : Option String) (t : RawTree) :
    (createFlatPageMetadataList (buildNode pid t)).length = nodeCount t := by
  cases t with
  | mk m subs =>
    simp [buildNode, createFlatPageMetadataList, nodeCount,
      flattenSubpageList_buildNodeList_length (some m.id) subs]
    omega

theorem flattenSubpageList_buildNodeList_length (pid : Option String)
    (ts : List RawTree) :
    (flattenSubpageList (buildNodeList pid ts)).length = nodeCountList ts := by
  cases ts with
  | nil => simp [buildNodeList, flattenSubpageList, nodeCountList]
  | cons t ts =>
    simp [buildNodeList, flattenSubpageList, nodeCountList,
      flatten_buildNode_length pid t,
      flattenSubpageList_buildNodeList_length pid ts]
end

mutual
theorem flatten_buildNode_root_false (pid : String) (t : RawTree) :
    ∀ e ∈ createFlatPageMetadataList (buildNode (some pid) t), e.root = false := by
  cases t with
  | mk m subs =>
    intro e he
    simp [buildNode, createFlatPageMetadataList] at he
    rcases he with he | he
    · simp [he]
    · exact flattenSubpageList_root_false m.id subs e he

theorem flattenSubpageList_root_false (pid : String) (ts : List RawTree) :
    ∀ e ∈ flattenSubpageList (buildNodeList (some pid) ts), e.root = false := by
  cases ts with
  | nil => simp [buildNodeList, flattenSubpageList]
  | cons t ts =>
    intro e he
    simp [buildNodeList, flattenSubpageList] at he
    rcases he with he | he
    · exact flatten_buildNode_root_false pid t e he
    · exact flattenSubpageList_root_false pid ts e he
end

/-- The head of a flattened discovered subtree is the subtree root's metadata,
whose `parent` field is the parent id handed down by the discoverer. -/
theorem flatten_buildNode_cons (pid : Option String) (m : RawMeta)
    (subs : List RawTree) :
    createFlatPageMetadataList (buildNode pid (.mk m subs)) =
      (buildNode pid (.mk m subs)).flat ::
        flattenSubpageList (buildNodeList (some m.id) subs) := by
  simp [buildNode, createFlatPageMetadataList, PageNode.flat]

mutual
theorem parentsResolveTree (pid : String) (t : RawTree) :
    ∀ e ∈ createFlatPageMetadataList (buildNode (some pid) t), e.root = false →
      (∃ pe ∈ createFlatPageMetadataList (buildNode (some pid) t),
        some pe.id = e.parent ∧ pe ≠ e) ∨
      (e = (buildNode (some pid) t).flat ∧ e.parent = some pid) := by
  cases t with
  | mk m subs =>
    intro e he hroot
    rw [flatten_buildNode_cons] at he ⊢
    simp only [List.mem_cons] at he
    rcases he with he | he
    · right
      refine ⟨he, ?_⟩
      rw [he]
      rfl
    · have hsub := parentsResolveList m.id subs e he hroot
      rcases hsub with ⟨pe, hpe, hpid, hne⟩ | hpar
      · exact Or.inl ⟨pe, List.mem_cons_of_mem _ hpe, hpid, hne⟩
      · by_cases hfl : (buildNode (some pid) (.mk m subs)).flat = e
        · right
          refine ⟨hfl.symm, ?_⟩
          rw [← hfl]
          rfl
        · left
          refine ⟨(buildNode (some pid) (.mk m subs)).flat,
            List.mem_cons_self _ _, ?_, hfl⟩
          rw [hpar]
          rfl

theorem parentsResolveList (pid : String) (ts : List RawTree) :
    ∀ e ∈ flattenSubpageList (buildNodeList (some pid) ts), e.root = false →
      (∃ pe ∈ flattenSubpageList (buildNodeList (some pid) ts),
        some pe.id = e.parent ∧ pe ≠ e) ∨
      e.parent = some pid := by
  cases ts with
  | nil => simp [buildNodeList, flattenSubpageList]
  | cons t ts =>
    intro e he hroot
    have hsplit : flattenSubpageList (buildNodeList (some pid) (t :: ts)) =
        createFlatPageMetadataList (buildNode (some pid) t) ++
          flattenSubpageList (buildNodeList (some pid) ts) := by
      simp [buildNodeList, flattenSubpageList]
    rw [hsplit] at he ⊢
    simp only [List.mem_append] at he
    rcases he with he | he
    · have := parentsResolveTree pid t e he hroot
      rcases this with ⟨pe, hpe, hpid, hne⟩ | ⟨_, hpar⟩
      · exact Or.inl ⟨pe, List.mem_append_left _ hpe, hpid, hne⟩
      · exact Or.inr hpar
    · have := parentsResolveList pid ts e he hroot
      rcases this with ⟨pe, hpe, hpid, hne⟩ | hpar
      · exact Or.inl ⟨pe, List.mem_append_right _ hpe, hpid, hne⟩
      · exact Or.inr hpar
end

/-- Helper: a list all of whose entries have `root = false` contributes
nothing to the root filter. -/
theorem filter_root_eq_nil {l : List FlatPage}
    (h : ∀ e ∈ l, e.root = false) : l.filter (fun e => e.root) = [] := by
  simpa using h

/-- C3: for every tree produced by discovery, the flattener's output has
length equal to the total node count, contains exactly one entry with
`root = true`, and every non-root entry's `parent` field is the id of some
other entry of the list. -/
theorem flattener_invariants (t : RawTree) (A : PageNode)
    (hdisc : retrieveSubpages t = some A) :
    (createFlatPageMetadataList A).length = nodeCount t ∧
      ((createFlatPageMetadataList A).filter (fun e => e.root)).length = 1 ∧
      ∀ e ∈ createFlatPageMetadataList A, e.root = false →
        ∃ pe ∈ createFlatPageMetadataList A, some pe.id = e.parent ∧ pe ≠ e := by
  have hA : A = buildNode none t := by
    by_cases hc : (buildNode none t).flat.tags.contains "coverpage:yes"
    · simp only [retrieveSubpages] at hdisc
      rw [if_pos hc] at hdisc
      exact (Option.some.inj hdisc).symm
    · simp only [retrieveSubpages] at hdisc
      rw [if_neg hc] at hdisc
      cases hdisc
  subst hA
  refine ⟨flatten_buildNode_length none t, ?_, ?_⟩
  · cases t with
    | mk m subs =>
      rw [flatten_buildNode_cons]
      have hroot : (buildNode none (.mk m subs)).flat.root = true := by
        simp [buildNode, PageNode.flat]
      rw [List.filter_cons]
      simp only [hroot, if_pos]
      rw [filter_root_eq_nil (flattenSubpageList_root_false m.id subs)]
      simp
  · cases t with
    | mk m subs =>
      intro e he hroot
      rw [flatten_buildNode_cons] at he ⊢
      simp only [List.mem_cons] at he
      rcases he with he | he
      · exfalso
        have : (buildNode none (.mk m subs)).flat.root = true := by
          simp [buildNode, PageNode.flat]
        rw [he, this] at hroot
        exact Bool.noConfusion hroot
      · have := parentsResolveList m.id subs e he hroot
        rcases this with ⟨pe, hpe, hpid, hne⟩ | hpar
        · exact ⟨pe, List.mem_cons_of_mem _ hpe, hpid, hne⟩
        · refine ⟨(buildNode none (.mk m subs)).flat, List.mem_cons_self _ _, ?_, ?_⟩
          · rw [hpar]
            rfl
          · intro hcontra
            have hr : (buildNode none (.mk m subs)).flat.root = true := by
              simp [buildNode, PageNode.flat]
            rw [hcontra, hroot] at hr
            exact Bool.noConfusion hr

/-- Embeds the merge step of `mergeInputStructure` (src/unnamed/part_001 lines
551-576): the translated page keeps its own text fields, and the structural
fields (`root`, `parent`, `tags`, `props`, `path`, section hints) are taken
from the matching input-metadata entry. -/
def mergePage (page foundInput : FlatPage) : FlatPage :=
  { page with
    root := foundInput.root
    parent := foundInput.parent
    tags := foundInput.tags
    props := foundInput.props
    path := foundInput.path
    urlNumPfx := foundInput.urlNumPfx
    urlTitleExtract := foundInput.urlTitleExtract }

/-- Embeds `createPageStructure` (src/unnamed/part_001 lines 517-530): attach
as subpages, in list order, every non-root entry whose `parent` strictly
equals the current page's id, recursing with the whole flat list.  The JS
recursion carries no fuel; `fuel` only forces termination in Lean and the
caller passes the list length, which is enough for every well-formed input
(see `createPageStructure_recon`). -/
def createPageStructure : Nat → FlatPage → List FlatPage → PageNode
  | 0, page, _ => .mk page none []
  | fuel + 1, page, pages =>
    .mk page none
      ((pages.filter (fun sp => !sp.root && sp.parent == some page.id)).map
        (fun sp => createPageStructure fuel sp pages))

/-- Embeds `mergeInputStructure` (src/unnamed/part_001 lines 540-587): merge
each translated page with the input-metadata entry found by `(lib, id)`
equality (dropping pages with no match), find the single `root = true` page,
and rebuild the hierarchy from it. -/
def mergeInputStructure (allPages translatedPages : List FlatPage) :
    Option PageNode :=
  let pagesData :=
    (translatedPages.map (fun page =>
      (allPages.find? (fun inputPage =>
        page.lib == inputPage.lib && page.id == inputPage.id)).map
        (mergePage page))).reduceOption
  match pagesData.find? (fun page => page.root == true) with
  | none => none
  | some rootPage => some (createPageStructure pagesData.length rootPage pagesData)

mutual
/-- Height of a page tree (number of levels). -/
def heightPN : PageNode → Nat
  | .mk _ _ subs => 1 + heightPNList subs

/-- Height of a forest: maximum height of its trees. -/
def heightPNList : List PageNode → Nat
  | [] => 0
  | p :: ps => max (heightPN p) (heightPNList ps)
end

mutual
/-- The tree with `contents` set to `none` at every node (the shape produced
by rebuilding from contents-free flat metadata). -/
def eraseContents : PageNode → PageNode
  | .mk f _ subs => .mk f none (eraseContentsList subs)

/-- `eraseContents` on a forest. -/
def eraseContentsList : List PageNode → List PageNode
  | [] => []
  | p :: ps => eraseContents p :: eraseContentsList ps
end

mutual
/-- All child metadata attached, anywhere in the tree, to a node whose id is
`tid` (concatenated in pre-order).  With distinct ids this is the child list
of the unique node with that id. -/
def childrenOfId (tid : String) : PageNode → List FlatPage
  | .mk f _ subs =>
    (if f.id = tid then List.map PageNode.flat subs else []) ++
      childrenOfIdList tid subs

/-- `childrenOfId` summed over a forest. -/
def childrenOfIdList (tid : String) : List PageNode → List FlatPage
  | [] => []
  | p :: ps => childrenOfId tid p ++ childrenOfIdList tid ps
end

mutual
/-- `goodCtx L t`: filtering the global flat list `L` for the children of any
node of `t` returns exactly that node's child metadata, in order.  This is
the invariant that makes `createPageStructure` rebuild `t` from `L`. -/
def goodCtx (L : List FlatPage) : PageNode → Prop
  | .mk f _ subs =>
    L.filter (fun sp => !sp.root && sp.parent == some f.id) =
        List.map PageNode.flat subs ∧
      goodCtxList L subs

/-- `goodCtx` for every tree of a forest. -/
def goodCtxList (L : List FlatPage) : List PageNode → Prop
  | [] => True
  | p :: ps => goodCtx L p ∧ goodCtxList L ps
end

mutual
theorem flatten_eraseContents (t : PageNode) :
    createFlatPageMetadataList (eraseContents t) = createFlatPageMetadataList t := by
  cases t with
  | mk f c subs =>
    simp [eraseContents, createFlatPageMetadataList,
      flattenSubpageList_eraseContents subs]

theorem flattenSubpageList_eraseContents (l : List PageNode) :
    flattenSubpageList (eraseContentsList l) = flattenSubpageList l := by
  cases l with
  | nil => rfl
  | cons p ps =>
    simp [eraseContentsList, flattenSubpageList, flatten_eraseContents p,
      flattenSubpageList_eraseContents ps]
end

mutual
theorem heightPN_le_flatten_length (t : PageNode) :
    heightPN t ≤ (createFlatPageMetadataList t).length := by
  cases t with
  | mk f c subs =>
    have := heightPNList_le_flatten_length subs
    simp only [heightPN, createFlatPageMetadataList, List.length_cons]
    omega

theorem heightPNList_le_flatten_length (l : List PageNode) :
    heightPNList l ≤ (flattenSubpageList l).length := by
  cases l with
  | nil => simp [heightPNList, flattenSubpageList]
  | cons p ps =>
    have h1 := heightPN_le_flatten_length p
    have h2 := heightPNList_le_flatten_length ps
    simp only [heightPNList, flattenSubpageList, List.length_append]
    omega
end

mutual
theorem childrenOfId_eq_nil (tid : String) (t : PageNode)
    (h : tid ∉ (createFlatPageMetadataList t).map FlatPage.id) :
    childrenOfId tid t = [] := by
  cases t with
  | mk f c subs =>
    simp only [createFlatPageMetadataList, List.map_cons, List.mem_cons,
      not_or] at h
    simp only [childrenOfId]
    rw [if_neg (fun hh : f.id = tid => h.1 hh.symm)]
    simp only [List.nil_append]
    exact childrenOfIdList_eq_nil tid subs h.2

theorem childrenOfIdList_eq_nil (tid : String) (l : List PageNode)
    (h : tid ∉ (flattenSubpageList l).map FlatPage.id) :
    childrenOfIdList tid l = [] := by
  cases l with
  | nil => rfl
  | cons p ps =>
    simp only [flattenSubpageList, List.map_append, List.mem_append, not_or] at h
    simp only [childrenOfIdList]
    rw [childrenOfId_eq_nil tid p h.1, childrenOfIdList_eq_nil tid ps h.2]
    rfl
end

mutual
theorem createPageStructure_recon (L : List FlatPage) (fuel : Nat)
    (t : PageNode) (hg : goodCtx L t) (hf : heightPN t ≤ fuel) :
    createPageStructure fuel t.flat L = eraseContents t := by
  cases t with
  | mk f c subs =>
    simp only [heightPN] at hf
    cases fuel with
    | zero => omega
    | succ k =>
      simp only [goodCtx] at hg
      simp only [createPageStructure, PageNode.flat, eraseContents, hg.1]
      have hk : heightPNList subs ≤ k := by omega
      rw [createPageStructure_recon_list L k subs hg.2 hk]

theorem createPageStructure_recon_list (L : List FlatPage) (fuel : Nat)
    (l : List PageNode) (hg : goodCtxList L l) (hf : heightPNList l ≤ fuel) :
    (List.map PageNode.flat l).map (fun sp => createPageStructure fuel sp L) =
      eraseContentsList l := by
  cases l with
  | nil => rfl
  | cons p ps =>
    simp only [heightPNList] at hf
    simp only [goodCtxList] at hg
    simp only [List.map_cons, eraseContentsList]
    rw [createPageStructure_recon L fuel p hg.1 (by omega),
      createPageStructure_recon_list L fuel ps hg.2 (by omega)]
end

/-- The reconstruction filter accepts the head of a flattened discovered
subtree exactly when the subtree's parent id is the target id. -/
theorem filter_cond_head (pid : Option String) (m : RawMeta)
    (subs : List RawTree) (tid : String) :
    (!(buildNode pid (.mk m subs)).flat.root &&
        ((buildNode pid (.mk m subs)).flat.parent == some tid)) =
      (pid == some tid) := by
  cases pid with
  | none => rfl
  | some q => rfl

mutual
theorem filter_flatten_buildNode (tid : String) (pid : Option String)
    (t : RawTree)
    (hnd : ((createFlatPageMetadataList (buildNode pid t)).map FlatPage.id).Nodup) :
    (createFlatPageMetadataList (buildNode pid t)).filter
        (fun sp => !sp.root && sp.parent == some tid) =
      (if pid = some tid then [(buildNode pid t).flat] else []) ++
        childrenOfId tid (buildNode pid t) := by
  cases t with
  | mk m subs =>
    rw [flatten_buildNode_cons] at hnd ⊢
    rw [List.filter_cons, filter_cond_head]
    simp only [List.map_cons, List.nodup_cons] at hnd
    have hid : (buildNode pid (.mk m subs)).flat.id = m.id := rfl
    have hout : m.id = tid →
        tid ∉ (flattenSubpageList (buildNodeList (some m.id) subs)).map
          FlatPage.id := by
      intro heq hmem
      rw [← heq] at hmem
      have h1 : m.id ∉ (flattenSubpageList (buildNodeList (some m.id) subs)).map
          FlatPage.id := by
        rw [← hid]
        exact hnd.1
      exact h1 hmem
    have hrec := filter_flattenSubpageList tid m.id subs hnd.2 hout
    rw [hrec]
    have hcho : childrenOfId tid (buildNode pid (.mk m subs)) =
        (if m.id = tid then
          List.map PageNode.flat (buildNodeList (some m.id) subs) else []) ++
          childrenOfIdList tid (buildNodeList (some m.id) subs) := by
      simp only [buildNode, childrenOfId]
    rw [hcho]
    by_cases hmatch : pid = some tid
    · rw [if_pos hmatch, if_pos (by rw [hmatch]; simp)]
      rfl
    · rw [if_neg hmatch, if_neg (by simp [hmatch])]
      rfl

theorem filter_flattenSubpageList (tid pid : String) (ts : List RawTree)
    (hnd : ((flattenSubpageList (buildNodeList (some pid) ts)).map
      FlatPage.id).Nodup)
    (hout : pid = tid →
      tid ∉ (flattenSubpageList (buildNodeList (some pid) ts)).map FlatPage.id) :
    (flattenSubpageList (buildNodeList (some pid) ts)).filter
        (fun sp => !sp.root && sp.parent == some tid) =
      (if pid = tid then
        List.map PageNode.flat (buildNodeList (some pid) ts) else []) ++
        childrenOfIdList tid (buildNodeList (some pid) ts) := by
  cases ts with
  | nil =>
    simp [buildNodeList, flattenSubpageList, childrenOfIdList]
  | cons t ts =>
    have hsplit : flattenSubpageList (buildNodeList (some pid) (t :: ts)) =
        createFlatPageMetadataList (buildNode (some pid) t) ++
          flattenSubpageList (buildNodeList (some pid) ts) := by
      simp [buildNodeList, flattenSubpageList]
    rw [hsplit] at hnd hout ⊢
    rw [List.map_append, List.nodup_append] at hnd
    rw [List.filter_append]
    have hrec1 := filter_flatten_buildNode tid (some pid) t hnd.1
    have hrec2 := filter_flattenSubpageList tid pid ts hnd.2.1
      (fun heq hmem => hout heq
        (by rw [List.map_append]; exact List.mem_append_right _ hmem))
    rw [hrec1, hrec2]
    have hlist : childrenOfIdList tid (buildNodeList (some pid) (t :: ts)) =
        childrenOfId tid (buildNode (some pid) t) ++
          childrenOfIdList tid (buildNodeList (some pid) ts) := by
      simp [buildNodeList, childrenOfIdList]
    rw [hlist]
    have hmap : List.map PageNode.flat (buildNodeList (some pid) (t :: ts)) =
        (buildNode (some pid) t).flat ::
          List.map PageNode.flat (buildNodeList (some pid) ts) := by
      simp [buildNodeList]
    rw [hmap]
    by_cases hmatch : pid = tid
    · have hnotin := hout hmatch
      rw [List.map_append, List.mem_append, not_or] at hnotin
      rw [childrenOfId_eq_nil tid (buildNode (some pid) t) hnotin.1,
        childrenOfIdList_eq_nil tid (buildNodeList (some pid) ts) hnotin.2]
      rw [if_pos (by rw [hmatch]), if_pos hmatch, if_pos hmatch]
      simp
    · rw [if_neg (by simp [hmatch]), if_neg hmatch, if_neg hmatch]
      simp
end

mutual
theorem goodCtx_buildNode (L : List FlatPage) (pid : Option String)
    (t : RawTree)
    (hnd : ((createFlatPageMetadataList (buildNode pid t)).map FlatPage.id).Nodup)
    (hfilt : ∀ tid,
      tid ∈ (createFlatPageMetadataList (buildNode pid t)).map FlatPage.id →
      L.filter (fun sp => !sp.root && sp.parent == some tid) =
        childrenOfId tid (buildNode pid t)) :
    goodCtx L (buildNode pid t) := by
  cases t with
  | mk m subs =>
    rw [flatten_buildNode_cons] at hnd hfilt
    simp only [List.map_cons, List.nodup_cons] at hnd
    have hid : (buildNode pid (.mk m subs)).flat.id = m.id := rfl
    rw [hid] at hnd
    simp only [buildNode, goodCtx]
    constructor
    · have h1 := hfilt m.id
        (by rw [← hid]; exact List.mem_map_of_mem _ (List.mem_cons_self _ _))
      rw [h1]
      have hcho : childrenOfId m.id (buildNode pid (.mk m subs)) =
          (if m.id = m.id then
            List.map PageNode.flat (buildNodeList (some m.id) subs) else []) ++
            childrenOfIdList m.id (buildNodeList (some m.id) subs) := by
        simp only [buildNode, childrenOfId]
      rw [show childrenOfId m.id (buildNode pid (RawTree.mk m subs)) =
          childrenOfId m.id (buildNode pid (.mk m subs)) from rfl, hcho,
        if_pos rfl,
        childrenOfIdList_eq_nil m.id (buildNodeList (some m.id) subs) hnd.1]
      simp
    · apply goodCtxList_buildNodeList L m.id subs hnd.2
      intro tid htid
      have hne : m.id ≠ tid := by
        intro heq
        exact hnd.1 (heq ▸ htid)
      have h2 := hfilt tid (List.mem_cons_of_mem _ htid)
      rw [h2]
      have hcho : childrenOfId tid (buildNode pid (.mk m subs)) =
          (if m.id = tid then
            List.map PageNode.flat (buildNodeList (some m.id) subs) else []) ++
            childrenOfIdList tid (buildNodeList (some m.id) subs) := by
        simp only [buildNode, childrenOfId]
      rw [hcho, if_neg hne]
      simp

theorem goodCtxList_buildNodeList (L : List FlatPage) (pid : String)
    (ts : List RawTree)
    (hnd : ((flattenSubpageList (buildNodeList (some pid) ts)).map
      FlatPage.id).Nodup)
    (hfilt : ∀ tid,
      tid ∈ (flattenSubpageList (buildNodeList (some pid) ts)).map FlatPage.id →
      L.filter (fun sp => !sp.root && sp.parent == some tid) =
        childrenOfIdList tid (buildNodeList (some pid) ts)) :
    goodCtxList L (buildNodeList (some pid) ts) := by
  cases ts with
  | nil => simp [buildNodeList, goodCtxList]
  | cons t ts =>
    have hsplit : flattenSubpageList (buildNodeList (some pid) (t :: ts)) =
        createFlatPageMetadataList (buildNode (some pid) t) ++
          flattenSubpageList (buildNodeList (some pid) ts) := by
      simp [buildNodeList, flattenSubpageList]
    rw [hsplit] at hnd hfilt
    rw [List.map_append, List.nodup_append] at hnd
    have hlist : ∀ tid, childrenOfIdList tid (buildNodeList (some pid) (t :: ts)) =
        childrenOfId tid (buildNode (some pid) t) ++
          childrenOfIdList tid (buildNodeList (some pid) ts) := by
      intro tid
      simp [buildNodeList, childrenOfIdList]
    have hgoal : goodCtxList L (buildNode (some pid) t ::
        buildNodeList (some pid) ts) := by
      simp only [goodCtxList]
      constructor
      · apply goodCtx_buildNode L (some pid) t hnd.1
        intro tid htid
        have h2 := hfilt tid
          (by rw [List.map_append]; exact List.mem_append_left _ htid)
        rw [h2, hlist tid,
          childrenOfIdList_eq_nil tid (buildNodeList (some pid) ts)
            (fun hmem => hnd.2.2 htid hmem)]
        simp
      · apply goodCtxList_buildNodeList L pid ts hnd.2.1
        intro tid htid
        have h2 := hfilt tid
          (by rw [List.map_append]; exact List.mem_append_right _ htid)
        rw [h2, hlist tid,
          childrenOfId_eq_nil tid (buildNode (some pid) t)
            (fun hmem => hnd.2.2 hmem htid)]
        simp
    simpa [buildNodeList] using hgoal
end

/-- With no duplicate ids, `find?` by `(lib, id)` equality locates each list
entry itself (the merge step of `mergeInputStructure` is the identity when a
flat list is merged against itself). -/
theorem find_lib_id_self (L : List FlatPage) (hnd : (L.map FlatPage.id).Nodup) :
    ∀ e ∈ L, L.find? (fun inputPage =>
      e.lib == inputPage.lib && e.id == inputPage.id) = some e := by
  induction L with
  | nil => simp
  | cons x xs ih =>
    intro e he
    simp only [List.map_cons, List.nodup_cons] at hnd
    rcases List.mem_cons.mp he with rfl | he2
    · exact List.find?_cons_of_pos _ (by simp)
    · have hne : e.id ≠ x.id := by
        intro hcontra
        apply hnd.1
        rw [← hcontra]
        exact List.mem_map_of_mem _ he2
      rw [List.find?_cons_of_neg _ (by
        simp only [Bool.and_eq_true, beq_iff_eq, not_and]
        exact fun _ h => hne h)]
      exact ih hnd.2 e he2

/-- Merging a flat entry with itself changes nothing. -/
theorem mergePage_self (e : FlatPage) : mergePage e e = e := rfl

/-- The merge pass of `mergeInputStructure`, applied to a list each of whose
entries finds itself in the metadata list, returns the list unchanged. -/
theorem mergeInputStructure_pass_self (L : List FlatPage) :
    ∀ M : List FlatPage,
      (∀ e ∈ M, L.find? (fun inputPage =>
        e.lib == inputPage.lib && e.id == inputPage.id) = some e) →
      ((M.map (fun page => (L.find? (fun inputPage =>
          page.lib == inputPage.lib && page.id == inputPage.id)).map
          (mergePage page))).reduceOption) = M := by
  intro M
  induction M with
  | nil => intro _; rfl
  | cons x xs ih =>
    intro h
    simp only [List.map_cons]
    rw [h x (List.mem_cons_self _ _)]
    simp only [Option.map_some']
    rw [List.reduceOption_cons_of_some, mergePage_self,
      ih fun e he => h e (List.mem_cons_of_mem _ he)]

/-- C1 (amended): round-trip stability of the flat metadata list holds under
globally distinct page ids.  For every discovered tree whose flat list has no
duplicate page ids — across libraries, not merely distinct `(lib, id)` pairs,
because the hierarchy is rebuilt by parent-id linkage on the id alone —
merging the flattened list against itself by `(lib, id)` identity, rebuilding
the hierarchy from the single root (`mergeInputStructure`), and re-flattening
yields exactly the original flattened list, in order and content. -/
theorem flatten_merge_flatten_roundTrip (t : RawTree)
    (hnd : ((createFlatPageMetadataList (buildNode none t)).map
      FlatPage.id).Nodup) :
    Option.map createFlatPageMetadataList
        (mergeInputStructure (createFlatPageMetadataList (buildNode none t))
          (createFlatPageMetadataList (buildNode none t))) =
      some (createFlatPageMetadataList (buildNode none t)) := by
  have hpd := mergeInputStructure_pass_self
    (createFlatPageMetadataList (buildNode none t))
    (createFlatPageMetadataList (buildNode none t))
    (find_lib_id_self _ hnd)
  simp only [mergeInputStructure, hpd]
  cases t with
  | mk m subs =>
    rw [flatten_buildNode_cons]
    have hfind : List.find? (fun page => page.root == true)
        ((buildNode none (.mk m subs)).flat ::
          flattenSubpageList (buildNodeList (some m.id) subs)) =
        some (buildNode none (.mk m subs)).flat := rfl
    rw [hfind]
    simp only [Option.map_some']
    rw [← flatten_buildNode_cons]
    have hgood : goodCtx (createFlatPageMetadataList (buildNode none (.mk m subs)))
        (buildNode none (.mk m subs)) := by
      apply goodCtx_buildNode _ none _ hnd
      intro tid _
      rw [filter_flatten_buildNode tid none _ hnd]
      rw [if_neg (by intro h; cases h)]
      rfl
    have hrec := createPageStructure_recon
      (createFlatPageMetadataList (buildNode none (.mk m subs)))
      (createFlatPageMetadataList (buildNode none (.mk m subs))).length
      (buildNode none (.mk m subs)) hgood
      (heightPN_le_flatten_length _)
    rw [hrec, flatten_eraseContents]

/-- Example discovery input: a cover-tagged root with one subpage. -/
def exRawChild : RawTree :=
  .mk
    { lib := "chem", id := "11", url := "u1", title := "Child", tags := []
      props := [], path := "Book/1.01%3AChild", summary := none
      contents := some "c1" } []

/-- Example discovery input, root node (carries the cover marker tag). -/
def exRawTree : RawTree :=
  .mk
    { lib := "chem", id := "10", url := "u0", title := "Root"
      tags := ["coverpage:yes"], props := [], path := "Book", summary := none
      contents := some "c0" } [exRawChild]

/-- Witness for C1 at the concrete two-node cover tree. -/
theorem flatten_merge_flatten_roundTrip_witness :
    ((createFlatPageMetadataList (buildNode none exRawTree)).map
      FlatPage.id).Nodup ∧
    Option.map createFlatPageMetadataList
        (mergeInputStructure (createFlatPageMetadataList (buildNode none exRawTree))
          (createFlatPageMetadataList (buildNode none exRawTree))) =
      some (createFlatPageMetadataList (buildNode none exRawTree)) :=
  ⟨by decide, flatten_merge_flatten_roundTrip exRawTree (by decide)⟩

/-- Witness for C3 at the concrete two-node cover tree. -/
theorem flattener_invariants_witness :
    retrieveSubpages exRawTree = some (buildNode none exRawTree) ∧
    ((createFlatPageMetadataList (buildNode none exRawTree)).length =
        nodeCount exRawTree ∧
      ((createFlatPageMetadataList (buildNode none exRawTree)).filter
        (fun e => e.root)).length = 1 ∧
      ∀ e ∈ createFlatPageMetadataList (buildNode none exRawTree),
        e.root = false →
        ∃ pe ∈ createFlatPageMetadataList (buildNode none exRawTree),
          some pe.id = e.parent ∧ pe ≠ e) :=
  ⟨rfl, flattener_invariants exRawTree (buildNode none exRawTree) rfl⟩

/-- A tree exhibiting a cross-library page-id collision: the root's two
children live in different libraries but share the page id `"5"`.  Every
`(lib, id)` pair is still unique, as the data model requires. -/
def exCollTree : RawTree :=
  .mk
    { lib := "a", id := "1", url := "r", title := "R", tags := ["coverpage:yes"]
      props := [], path := "r", summary := none, contents := none }
    [.mk
      { lib := "a", id := "5", url := "x", title := "X", tags := []
        props := [], path := "x", summary := none, contents := none }
      [.mk
        { lib := "a", id := "7", url := "c", title := "C", tags := []
          props := [], path := "c", summary := none, contents := none } []],
     .mk
      { lib := "b", id := "5", url := "y", title := "Y", tags := []
        props := [], path := "y", summary := none, contents := none }
      [.mk
        { lib := "b", id := "8", url := "d", title := "D", tags := []
          props := [], path := "d", summary := none, contents := none } []]]

/-- C1 (counterexample): the claim as stated fails on a discovered tree whose
`(lib, id)` pairs are all distinct but whose ids collide across libraries:
`createPageStructure` attaches children by parent-id equality alone, so both
id-`"5"` nodes adopt each other's children and re-flattening does not
reproduce the original flat list. -/
theorem flatten_merge_roundTrip_counterexample :
    ((createFlatPageMetadataList (buildNode none exCollTree)).map
      (fun e => (e.lib, e.id))).Nodup ∧
    Option.map createFlatPageMetadataList
        (mergeInputStructure
          (createFlatPageMetadataList (buildNode none exCollTree))
          (createFlatPageMetadataList (buildNode none exCollTree))) ≠
      some (createFlatPageMetadataList (buildNode none exCollTree)) := by
  constructor <;> decide

/-- The character class of the template-token regex `[A-Za-z.()]`. -/
def isTokenChar (c : Char) : Bool :=
  c.isAlpha || c == '.' || c == '(' || c == ')'

/-- Recognizes a leading `\x7d\x7d` (double closing brace), returning the
remainder. -/
def tokenTail : List Char → Option (List Char)
  | c :: d :: tail => if c = '\x7d' ∧ d = '\x7d' then some tail else none
  | _ => none

/-- One leftmost-match step of the JS regex `/\x7b\x7b([A-Za-z.()]*)\x7d\x7d/`:
if the input starts with `\x7b\x7b`, a (maximal) run of token characters and
`\x7d\x7d`, return the matched text and the remainder.  Because `\x7d` is not
a token character, the regex's greedy run with backtracking matches exactly
the maximal run followed immediately by the double closing brace. -/
def tokenAtFront : List Char → Option (List Char × List Char)
  | a :: b :: rest =>
    if a = '\x7b' ∧ b = '\x7b' then
      match tokenTail (rest.dropWhile isTokenChar) with
      | some tail =>
        some ('\x7b' :: '\x7b' :: (rest.takeWhile isTokenChar ++
          ['\x7d', '\x7d']), tail)
      | none => none
    else none
  | _ => none

/-- The replacement `noTranslateDiv` of `processPageContents`
(src/start-translation/main.js line 439): wrap the match in a
non-translatable block element. -/
def noTranslateDiv (m : List Char) : List Char :=
  "<div translate=\"no\">".data ++ m ++ "</div>".data

/-- The `replaceAll(dekiRegex, noTranslateDiv)` scan
(src/start-translation/main.js lines 436, 441): walk left to right; wrap each
leftmost match and continue after it, otherwise advance one character.
`fuel` only forces structural termination; the input length suffices. -/
def replaceTokensAux : Nat → List Char → List Char
  | 0, s => s
  | fuel + 1, s =>
    match tokenAtFront s with
    | some (m, tail) => noTranslateDiv m ++ replaceTokensAux fuel tail
    | none =>
      match s with
      | [] => []
      | c :: rest => c :: replaceTokensAux fuel rest

/-- The template-token rewrite of the content transform, as a function on
strings: every occurrence of a double-brace template token is wrapped in a
non-translatable block element. -/
def wrapDekiTokens (s : String) : String :=
  ⟨replaceTokensAux s.data.length s.data⟩

/-- Does the JS regex `/\x7b\x7b([A-Za-z.()]*)\x7d\x7d/` match anywhere in the
input?  (Spec-side predicate: a match starts at some position.) -/
def hasToken : List Char → Bool
  | [] => false
  | c :: rest => (tokenAtFront (c :: rest)).isSome || hasToken rest

/-- Inversion for `tokenTail`. -/
theorem tokenTail_some {l tail : List Char} (h : tokenTail l = some tail) :
    l = '\x7d' :: '\x7d' :: tail := by
  match l with
  | [] => cases h
  | [c] => cases h
  | c :: d :: rest =>
    simp only [tokenTail] at h
    by_cases hcd : c = '\x7d' ∧ d = '\x7d'
    · rw [if_pos hcd] at h
      rw [hcd.1, hcd.2, Option.some.inj h]
    · rw [if_neg hcd] at h
      cases h

/-- Inversion for `tokenAtFront`: a match decomposes the input as the matched
text followed by the remainder, and the matched text is a double-brace-wrapped
run of token characters. -/
theorem tokenAtFront_decomp {s m tail : List Char}
    (h : tokenAtFront s = some (m, tail)) :
    s = m ++ tail ∧
      ∃ tw, m = '\x7b' :: '\x7b' :: (tw ++ ['\x7d', '\x7d']) ∧
        ∀ c ∈ tw, isTokenChar c = true := by
  match s with
  | [] => cases h
  | [a] => cases h
  | a :: b :: rest =>
    simp only [tokenAtFront] at h
    by_cases hab : a = '\x7b' ∧ b = '\x7b'
    · rw [if_pos hab] at h
      rcases htt : tokenTail (rest.dropWhile isTokenChar) with _ | tail2
      · rw [htt] at h
        cases h
      · rw [htt] at h
        have hdw := tokenTail_some htt
        have hm := (Prod.mk.injEq _ _ _ _).mp (Option.some.inj h)
        constructor
        · rw [← hm.1, ← hm.2, hab.1, hab.2]
          have hrest : rest = rest.takeWhile isTokenChar ++
              ('\x7d' :: '\x7d' :: tail2) := by
            conv_lhs => rw [← List.takeWhile_append_dropWhile isTokenChar rest]
            rw [hdw]
          simp only [List.cons_append, List.cons.injEq, true_and,
            List.append_assoc]
          simpa using hrest
        · exact ⟨rest.takeWhile isTokenChar, hm.1.symm,
            fun c hc => List.mem_takeWhile_imp hc⟩
    · rw [if_neg hab] at h
      cases h

/-- `dropWhile` skips over a block of characters all satisfying the
predicate. -/
theorem dropWhile_append_of_all {α : Type} {p : α → Bool} :
    ∀ (a b : List α), (∀ x ∈ a, p x = true) →
      List.dropWhile p (a ++ b) = List.dropWhile p b := by
  intro a b h
  induction a with
  | nil => rfl
  | cons x xs ih =>
    have hx := h x (List.mem_cons_self _ _)
    simp only [List.cons_append, List.dropWhile_cons, hx, if_true]
    exact ih fun y hy => h y (List.mem_cons_of_mem _ hy)

/-- A match somewhere in `b` is still a match somewhere in `a ++ b`. -/
theorem hasToken_append_right (a b : List Char) (h : hasToken b = true) :
    hasToken (a ++ b) = true := by
  induction a with
  | nil => exact h
  | cons c cs ih =>
    simp only [List.cons_append, hasToken, Bool.or_eq_true]
    exact Or.inr ih

/-- The wrapped match still matches: the token inside the wrapper is found
again by the scanner. -/
theorem hasToken_wrapped (tw rest2 : List Char)
    (h : ∀ c ∈ tw, isTokenChar c = true) :
    hasToken (('\x7b' :: '\x7b' :: (tw ++ ['\x7d', '\x7d'])) ++ rest2) = true := by
  have htf : (tokenAtFront (('\x7b' :: '\x7b' :: (tw ++ ['\x7d', '\x7d'])) ++
      rest2)).isSome = true := by
    have hshape : ('\x7b' :: '\x7b' :: (tw ++ ['\x7d', '\x7d'])) ++ rest2 =
        '\x7b' :: '\x7b' :: (tw ++ ('\x7d' :: '\x7d' :: rest2)) := by
      simp
    rw [hshape]
    have hpos : ('\x7b' : Char) = '\x7b' ∧ ('\x7b' : Char) = '\x7b' := ⟨rfl, rfl⟩
    simp only [tokenAtFront, if_pos hpos]
    rw [dropWhile_append_of_all tw ('\x7d' :: '\x7d' :: rest2) h]
    have hnot : isTokenChar '\x7d' = false := rfl
    simp only [List.dropWhile_cons, hnot, if_false]
    rfl
  simp only [List.cons_append, hasToken, Bool.or_eq_true]
  left
  simpa using htf

/-- Length of the wrapper output: the two wrapper tags add 26 characters. -/
theorem noTranslateDiv_length (m : List Char) :
    (noTranslateDiv m).length = m.length + 26 := by
  have h1 : ("<div translate=\"no\">".data).length = 20 := rfl
  have h2 : ("</div>".data).length = 6 := rfl
  simp only [noTranslateDiv, List.length_append, h1, h2]
  omega

/-- The rewrite never shortens its input. -/
theorem replaceTokensAux_length (fuel : Nat) :
    ∀ s : List Char, s.length ≤ (replaceTokensAux fuel s).length := by
  induction fuel with
  | zero => intro s; simp [replaceTokensAux]
  | succ k ih =>
    intro s
    rcases htf : tokenAtFront s with _ | ⟨m, tail⟩
    · cases s with
      | nil => simp [replaceTokensAux]
      | cons c rest =>
        simp only [replaceTokensAux, htf, List.length_cons]
        exact Nat.succ_le_succ (ih rest)
    · obtain ⟨hdecomp, tw, hcm, _⟩ := tokenAtFront_decomp htf
      simp only [replaceTokensAux, htf]
      have h1 := ih tail
      have h2 : s.length = m.length + tail.length := by
        rw [hdecomp, List.length_append]
      rw [List.length_append, noTranslateDiv_length]
      omega

/-- On an input containing a template token, the rewrite strictly grows the
string (each match gains its wrapper element). -/
theorem replaceTokensAux_length_lt (fuel : Nat) :
    ∀ s : List Char, s.length ≤ fuel → hasToken s = true →
      s.length < (replaceTokensAux fuel s).length := by
  induction fuel with
  | zero =>
    intro s hf ht
    interval_cases hl : s.length
    · rw [List.length_eq_zero] at hl
      rw [hl] at ht
      cases ht
  | succ k ih =>
    intro s hf ht
    rcases htf : tokenAtFront s with _ | ⟨m, tail⟩
    · cases s with
      | nil => cases ht
      | cons c rest =>
        simp only [hasToken, htf, Option.isSome_none, Bool.false_or] at ht
        simp only [replaceTokensAux, htf, List.length_cons]
        have := ih rest (by simpa using Nat.le_of_succ_le_succ hf) ht
        omega
    · obtain ⟨hdecomp, tw, hcm, _⟩ := tokenAtFront_decomp htf
      simp only [replaceTokensAux, htf]
      have h1 := replaceTokensAux_length k tail
      have h2 : s.length = m.length + tail.length := by
        rw [hdecomp, List.length_append]
      rw [List.length_append, noTranslateDiv_length]
      omega

/-- The rewrite preserves the presence of a template token: the wrapper
contains the token verbatim, so the output still matches. -/
theorem replaceTokensAux_hasToken (fuel : Nat) :
    ∀ s : List Char, s.length ≤ fuel → hasToken s = true →
      hasToken (replaceTokensAux fuel s) = true := by
  induction fuel with
  | zero =>
    intro s hf ht
    have hl : s = [] := List.length_eq_zero.mp (Nat.le_zero.mp hf)
    rw [hl] at ht
    cases ht
  | succ k ih =>
    intro s hf ht
    rcases htf : tokenAtFront s with _ | ⟨m, tail⟩
    · cases s with
      | nil => cases ht
      | cons c rest =>
        simp only [hasToken, htf, Option.isSome_none, Bool.false_or] at ht
        simp only [replaceTokensAux, htf]
        simp only [hasToken, Bool.or_eq_true]
        exact Or.inr (ih rest (by simpa using Nat.le_of_succ_le_succ hf) ht)
    · obtain ⟨hdecomp, tw, hcm, htw⟩ := tokenAtFront_decomp htf
      simp only [replaceTokensAux, htf]
      rw [hcm]
      simp only [noTranslateDiv, List.append_assoc]
      exact hasToken_append_right _ _ (hasToken_wrapped tw _ htw)

/-- On an input containing no template token the rewrite is the identity. -/
theorem replaceTokensAux_no_token (fuel : Nat) :
    ∀ s : List Char, hasToken s = false → replaceTokensAux fuel s = s := by
  induction fuel with
  | zero => intro s _; rfl
  | succ k ih =>
    intro s ht
    cases s with
    | nil => rfl
    | cons c rest =>
      simp only [hasToken, Bool.or_eq_false_iff] at ht
      have htf : tokenAtFront (c :: rest) = none :=
        Option.not_isSome_iff_eq_none.mp (by simp [ht.1])
      simp only [replaceTokensAux, htf]
      rw [ih rest ht.2]

/-- C5 (amended): the template-token rewrite is idempotent exactly on inputs
that contain no double-brace template token.  On any input still containing a
token — in particular on output of the rewrite itself, whose wrapper elements
contain the token verbatim — a second application wraps the token again, so
applying the rewrite twice differs from applying it once (double-wrapping
occurs). -/
theorem wrapDekiTokens_idem_iff (s : String) :
    wrapDekiTokens (wrapDekiTokens s) = wrapDekiTokens s ↔
      hasToken s.data = false := by
  constructor
  · intro h
    by_contra hcontra
    have ht : hasToken s.data = true := by
      cases hcase : hasToken s.data
      · exact absurd hcase hcontra
      · rfl
    have h2 : hasToken (replaceTokensAux s.data.length s.data) = true :=
      replaceTokensAux_hasToken _ _ le_rfl ht
    have h3 := replaceTokensAux_length_lt
      (replaceTokensAux s.data.length s.data).length
      (replaceTokensAux s.data.length s.data) le_rfl h2
    have hdata : replaceTokensAux (replaceTokensAux s.data.length s.data).length
        (replaceTokensAux s.data.length s.data) =
        replaceTokensAux s.data.length s.data := congrArg String.data h
    rw [hdata] at h3
    exact lt_irrefl _ h3
  · intro h
    have hw : wrapDekiTokens s = s := by
      simp only [wrapDekiTokens, replaceTokensAux_no_token _ _ h]
    rw [hw]
    exact hw

/-- C5 (counterexample): the rewrite is not idempotent on inputs already
containing the wrapper element.  Take the already-wrapped string
`wrapDekiTokens "\x7b\x7bA\x7d\x7d"`, namely
`<div translate="no">\x7b\x7bA\x7d\x7d</div>`: applying the rewrite twice to
it differs from applying it once, because each application wraps the inner
token again. -/
theorem wrapDekiTokens_not_idem_on_wrapped :
    wrapDekiTokens (wrapDekiTokens (wrapDekiTokens "\x7b\x7bA\x7d\x7d")) ≠
      wrapDekiTokens (wrapDekiTokens "\x7b\x7bA\x7d\x7d") := by
  decide

/-- Embeds the outcome of `uploadLibreText`
(src/start-translation/main.js lines 563-610) over the per-node S3 write
outcomes (`true` = HTTP 200).  Returns `(upload success, metadata record
written)`: the `JobMetadataRecord` is written only when the fail count is
zero; otherwise the function logs the failure and reports `false`. -/
def uploadLibreText (writeResults : List Bool) : Bool × Bool :=
  let failCount := writeResults.countP (fun b => !b)
  if failCount == 0 then (true, true) else (false, false)

/-- The external effects stage A can observe: queue deletion outcome,
parameter-store outcome, whether page fetches succeed, the tree served by the
platform, the per-node S3 write outcomes, and whether the request carried a
well-formed language code. -/
structure StageAEnv where
  msgDeleted : Bool
  paramsRetrieved : Bool
  fetchOk : Bool
  sourceTree : RawTree
  writeResults : List Bool
  langCodeOk : Bool

/-- Observable trace of one `startTranslation` invocation. -/
structure StageATrace where
  result : Bool
  contentFetched : Bool
  metadataWritten : Bool
  jobSubmitted : Bool
deriving Repr, DecidableEq

/-- Embeds the control flow of `startTranslation`
(src/start-translation/main.js lines 665-729): return `false` if the queue
message cannot be deleted or the library keys cannot be retrieved; return
`false` if discovery yields `null`; otherwise fetch contents, pre-process,
upload (line 712 — the boolean returned by `uploadLibreText` is not
consulted), then call `initiateTranslationJob`, which issues the
`StartTextTranslationJob` request whenever the language code passes its guard
(lines 621-624); the function then returns `true` (line 728). -/
def startTranslationRun (env : StageAEnv) : StageATrace :=
  if !env.msgDeleted then ⟨false, false, false, false⟩
  else if !env.paramsRetrieved then ⟨false, false, false, false⟩
  else
    match (if env.fetchOk then retrieveSubpages env.sourceTree else none) with
    | none => ⟨false, false, false, false⟩
    | some _ =>
      let upload := uploadLibreText env.writeResults
      ⟨true, true, upload.2, env.langCodeOk⟩

/-- A stage-A environment in which every step succeeds except one per-node
content write (the second of two S3 writes fails). -/
def envUploadFail : StageAEnv :=
  { msgDeleted := true, paramsRetrieved := true, fetchOk := true
    sourceTree := exRawTree, writeResults := [true, false], langCodeOk := true }

/-- C2 (code evaluated at the failing input): with one per-node content write
failed, `uploadLibreText` reports failure and withholds the metadata record,
yet `startTranslation` still submits the translation job (and reports overall
success), because the upload result is never consulted before
`initiateTranslationJob` is called. -/
theorem uploadFailure_still_submits_job :
    (uploadLibreText [true, false]).1 = false ∧
    (uploadLibreText [true, false]).2 = false ∧
    startTranslationRun envUploadFail =
      { result := true, contentFetched := true, metadataWritten := false
        jobSubmitted := true } := by
  refine ⟨by decide, by decide, ?_⟩
  decide

/-- C9: if the root page's tags do not include the cover marker
`coverpage:yes`, discovery fails (`retrieveSubpages` yields `null`) and stage
A performs no page-content fetch for any node and aborts with `false`. -/
theorem cover_marker_required (env : StageAEnv)
    (h : env.sourceTree.meta.tags.contains "coverpage:yes" = false) :
    retrieveSubpages env.sourceTree = none ∧
      (startTranslationRun env).contentFetched = false ∧
      (startTranslationRun env).result = false := by
  have hnone : retrieveSubpages env.sourceTree = none := by
    cases htree : env.sourceTree with
    | mk m subs =>
      rw [htree] at h
      have htags : (buildNode none (.mk m subs)).flat.tags = m.tags := rfl
      simp only [retrieveSubpages]
      rw [if_neg]
      rw [htags]
      intro hcontra
      rw [show RawTree.meta (.mk m subs) = m from rfl] at h
      rw [hcontra] at h
      cases h
  refine ⟨hnone, ?_⟩
  simp only [startTranslationRun, hnone, ite_self]
  cases env.msgDeleted <;> cases env.paramsRetrieved <;> simp

/-- A raw tree whose root lacks the cover marker tag. -/
def exNoCoverTree : RawTree :=
  .mk
    { lib := "chem", id := "20", url := "u", title := "T", tags := ["k:v"]
      props := [], path := "p", summary := none, contents := none } []

/-- A stage-A environment whose source tree lacks the cover marker. -/
def envNoCover : StageAEnv :=
  { msgDeleted := true, paramsRetrieved := true, fetchOk := true
    sourceTree := exNoCoverTree, writeResults := [], langCodeOk := true }

/-- Witness for C9 at the concrete uncovered tree. -/
theorem cover_marker_required_witness :
    envNoCover.sourceTree.meta.tags.contains "coverpage:yes" = false ∧
    (retrieveSubpages envNoCover.sourceTree = none ∧
      (startTranslationRun envNoCover).contentFetched = false ∧
      (startTranslationRun envNoCover).result = false) :=
  ⟨by decide, cover_marker_required envNoCover (by decide)⟩

/-- The translation job's output manifest, as consumed by
`retrieveTranslationJobDetails`: whether the details file parsed as JSON,
whether its `details` field is an array, the raw input data prefix
(source field `inputDataPrefix`), and whether both error counts parse as
integers. -/
structure TranslationJobManifest where
  parsedOk : Bool
  detailsIsArray : Bool
  inputDataPfx : String
  errorCountsOk : Bool
deriving Repr, DecidableEq

/-- Embeds the cover-identity decoding of `retrieveTranslationJobDetails`
(src/unnamed/part_001 lines 324-334): strip the `s3://` scheme, take the
second `/`-segment as the cover id, split it on `-` into `(lib, id)`, and
fail unless both parts are non-empty strings. -/
def parseJobCoverID (inputDataPfx : String) : Option (String × String) :=
  let inputPath := replaceFirstS inputDataPfx "s3://" ""
  let inputCoverID := ((splitOnS inputPath "/")[1]?).getD ""
  if !isNonEmptyString inputCoverID then none
  else
    let parts := splitOnS inputCoverID "-"
    let lib := parts.headD ""
    let id := (parts[1]?).getD ""
    if !isNonEmptyString lib || !isNonEmptyString id then none
    else some (lib, id)

/-- Embeds `retrieveTranslationJobDetails` (src/unnamed/part_001 lines
285-353) over an already-fetched manifest (`none` models a failed S3 read of
the details file); returns the decoded root `(lib, id)` on success. -/
def retrieveTranslationJobDetails (file : Option TranslationJobManifest) :
    Option (String × String) :=
  match file with
  | none => none
  | some mf =>
    if !mf.parsedOk then none
    else if !mf.detailsIsArray then none
    else
      match parseJobCoverID mf.inputDataPfx with
      | none => none
      | some libId => if !mf.errorCountsOk then none else some libId

/-- The external effects stage B can observe up to the metadata-record read:
whether the triggering event carried a job id, the fetched job manifest, and
an abstraction of the rest of the pipeline. -/
structure StageBEnv where
  jobIdOk : Bool
  manifest : Option TranslationJobManifest
  restOk : Bool

/-- Observable trace of one `processTranslated` invocation, up to the read of
the stored `JobMetadataRecord`. -/
structure StageBTrace where
  result : Bool
  metadataReadAttempted : Bool
deriving Repr, DecidableEq

/-- Embeds the prefix of `processTranslated` (src/unnamed/part_001 lines
819-853): fail on a missing job id; fail (returning `false`) when
`retrieveTranslationJobDetails` yields `null`; only otherwise is
`retrieveInputMetadata` — the read of the stored `JobMetadataRecord` —
attempted.  `restOk` abstracts everything after that read. -/
def processTranslatedRun (env : StageBEnv) : StageBTrace :=
  if !env.jobIdOk then ⟨false, false⟩
  else
    match retrieveTranslationJobDetails env.manifest with
    | none => ⟨false, false⟩
    | some _ => ⟨env.restOk, true⟩

/-- C7: for every job manifest whose input data prefix does not decode to a
well-formed `(lib, id)` cover identifier, correlation fails for that
invocation and the read of the stored `JobMetadataRecord` is never
attempted. -/
theorem correlation_fails_without_metadata_read (env : StageBEnv)
    (mf : TranslationJobManifest)
    (hmf : env.manifest = some mf)
    (hdec : parseJobCoverID mf.inputDataPfx = none) :
    retrieveTranslationJobDetails env.manifest = none ∧
      (processTranslatedRun env).metadataReadAttempted = false := by
  have hnone : retrieveTranslationJobDetails env.manifest = none := by
    rw [hmf]
    simp only [retrieveTranslationJobDetails]
    cases hparsed : mf.parsedOk <;> cases harr : mf.detailsIsArray <;>
      simp [hparsed, harr, hdec]
  refine ⟨hnone, ?_⟩
  simp only [processTranslatedRun, hnone]
  cases env.jobIdOk <;> simp

/-- A manifest whose input data prefix has a cover segment without a hyphen
separator. -/
def exBadManifest : TranslationJobManifest :=
  { parsedOk := true, detailsIsArray := true
    inputDataPfx := "s3://poly-input/chem10/", errorCountsOk := true }

/-- A stage-B environment carrying the malformed manifest. -/
def envBadManifest : StageBEnv :=
  { jobIdOk := true, manifest := some exBadManifest, restOk := true }

/-- Witness for C7 at the concrete malformed input prefix
`s3://poly-input/chem10/` (cover segment `chem10` lacks the hyphen). -/
theorem correlation_fails_witness :
    (envBadManifest.manifest = some exBadManifest ∧
      parseJobCoverID exBadManifest.inputDataPfx = none) ∧
    (retrieveTranslationJobDetails envBadManifest.manifest = none ∧
      (processTranslatedRun envBadManifest).metadataReadAttempted = false) :=
  ⟨⟨rfl, by decide⟩,
    correlation_fails_without_metadata_read envBadManifest exBadManifest rfl
      (by decide)⟩

/-- Embeds the destination path-segment computation of `saveToLibrary`
(src/unnamed/part_001 lines 749-759): trim the title; when a non-empty
section-number hint exists, split the title on `:` and, if a colon is
present, keep only the (trimmed) part between the first and second colons;
prefix `"<num>: "`; finally replace every space with an underscore. -/
def computePagePathSegment (urlNumPfx : Option String) (title : String) :
    String :=
  let trimTitle := trimS title
  let newPagePath :=
    match urlNumPfx with
    | some numPfx =>
      if isNonEmptyString numPfx then
        let splitTitle := splitOnS trimTitle ":"
        let newPageURLTitle :=
          if splitTitle.length > 1 then trimS ((splitTitle[1]?).getD "")
          else trimTitle
        numPfx ++ ": " ++ newPageURLTitle
      else trimTitle
    | none => trimTitle
  replaceAllS newPagePath " " "_"

/-- Spec-side statement of the amended C8 wording: for a node with a
(non-empty) section-number hint the destination path segment is the number
prefix, colon and space, then — if the trimmed title contains a colon — the
trimmed segment between the first and second colons, otherwise the whole
trimmed title; spaces replaced by underscores. -/
def specPathSegment (numPfx title : String) : String :=
  let t := trimS title
  let kept :=
    match splitOnS t ":" with
    | [] => t
    | [_] => t
    | _ :: second :: _ => trimS second
  replaceAllS (numPfx ++ ": " ++ kept) " " "_"

/-- C8 (amended): for every node with a non-empty section-number hint, the
writer's destination path segment is the number prefix, a colon and space,
then — when the trimmed title contains a colon — only the trimmed segment
between the first and second colons (whatever precedes the first colon is
dropped, and anything after a second colon is lost), otherwise the whole
trimmed title, with spaces replaced by underscores; in particular
`urlNumPrefix = "1.1"` with title `"1.1: Intro"` yields `"1.1:_Intro"` with
no duplicated prefix. -/
theorem saveToLibrary_pathSegment (numPfx title : String)
    (h : isNonEmptyString numPfx = true) :
    computePagePathSegment (some numPfx) title = specPathSegment numPfx title ∧
    computePagePathSegment (some "1.1") "1.1: Intro" = "1.1:_Intro" := by
  constructor
  · simp only [computePagePathSegment, specPathSegment, h, if_true]
    rcases hsplit : splitOnS (trimS title) ":" with _ | ⟨a, _ | ⟨b, rest⟩⟩
    · simp [hsplit]
    · simp [hsplit]
    · simp [hsplit]
  · decide

/-- C8 (counterexample): the frozen claim predicts, for `urlNumPrefix = "1.1"`
and title `"1.1: Intro: Two"`, the segment `"1.1:_Intro:_Two"` (number
prefix, colon-space, then the title with its leading number segment
stripped, spaces to underscores), but the code keeps only the part between
the first and second colons and computes `"1.1:_Intro"`. -/
theorem saveToLibrary_pathSegment_counterexample :
    computePagePathSegment (some "1.1") "1.1: Intro: Two" = "1.1:_Intro" ∧
    computePagePathSegment (some "1.1") "1.1: Intro: Two" ≠
      "1.1:_Intro:_Two" := by
  constructor <;> decide

/-- Witness for C8 (amended) at the concrete node of the claim. -/
theorem saveToLibrary_pathSegment_witness :
    isNonEmptyString "1.1" = true ∧
    (computePagePathSegment (some "1.1") "1.1: Intro" =
        specPathSegment "1.1" "1.1: Intro" ∧
      computePagePathSegment (some "1.1") "1.1: Intro" = "1.1:_Intro") :=
  ⟨by decide, saveToLibrary_pathSegment "1.1" "1.1: Intro" (by decide)⟩

/-- Embeds `assembleUrl` (src/unnamed/part_001 lines 102-118): concatenate
the non-empty parts, inserting `/` before a part when the accumulated url
does not already end in `/` and its trimmed length exceeds one. -/
def assembleUrl (parts : List String) : String :=
  parts.foldl
    (fun url currPart =>
      if isNonEmptyString currPart then
        (if !endsWithS url "/" && (trimS url).data.length > 1 then url ++ "/"
         else url) ++ currPart
      else url) ""

/-- The characters JS `encodeURIComponent` leaves unescaped:
`A-Z a-z 0-9 - _ . ! ~ * ' ( )`. -/
def isUnreservedURIChar (c : Char) : Bool :=
  c.isAlpha || c.isDigit || c == '-' || c == '_' || c == '.' || c == '!' ||
    c == '~' || c == '*' || c == '\x27' || c == '(' || c == ')'

/-- Upper-case hexadecimal digit for a value below 16. -/
def toHexDigit (n : Nat) : Char :=
  if n < 10 then Char.ofNat (48 + n) else Char.ofNat (55 + n)

/-- The UTF-8 encoding of one scalar value, as byte values. -/
def utf8Bytes (c : Char) : List Nat :=
  let n := c.toNat
  if n < 128 then [n]
  else if n < 2048 then [192 + n / 64, 128 + n % 64]
  else if n < 65536 then [224 + n / 4096, 128 + (n / 64) % 64, 128 + n % 64]
  else [240 + n / 262144, 128 + (n / 4096) % 64, 128 + (n / 64) % 64,
    128 + n % 64]

/-- Percent-encoding of one byte value. -/
def percentEncodeByte (b : Nat) : List Char :=
  ['%', toHexDigit (b / 16), toHexDigit (b % 16)]

/-- JS `encodeURIComponent`: unreserved characters pass through, every other
character is replaced by the percent-encoding of its UTF-8 bytes. -/
def encodeURIComponent (s : String) : String :=
  ⟨(s.data.map (fun c =>
    if isUnreservedURIChar c then [c]
    else ((utf8Bytes c).map percentEncodeByte).flatten)).flatten⟩

/-- Embeds the page-creation request URL of `saveToLibrary`
(src/unnamed/part_001 lines 746, 762-764): the target library's pages API
root, the double-encoded destination path, the encoded title, and the fixed
query flags — including `abort=exists`, which makes the platform refuse to
overwrite an existing page at that path. -/
def createPageRequestUrl (targetLib pagePath trimTitle : String) : String :=
  "https://" ++ targetLib ++ ".libretexts.org/@api/deki/pages/" ++ "=" ++
    encodeURIComponent (encodeURIComponent pagePath) ++ "/contents?title=" ++
    encodeURIComponent trimTitle ++
    "&edittime=now&abort=exists&dream.out.format=json"

mutual
/-- Embeds `saveToLibrary` (src/unnamed/part_001 lines 734-811) over an
abstract destination platform: `createOk path` tells whether the
page-creation POST at destination path `path` reports `@status = success`
(with `abort=exists`, a page already existing at the path reports
non-success).  Returns the JS boolean result paired with the list of
destination paths at which a creation request was issued, in order.  The
guard failures (missing page or empty target library/path) throw before any
request; a non-success creation throws, skipping the whole subtree; tag,
property and thumbnail saves are best-effort in the source and affect
nothing; child results are awaited but never consulted. -/
def saveToLibrary (createOk : String → Bool) (page : PageNode)
    (targetLib targetPath parentPath : String) : Bool × List String :=
  match page with
  | .mk flat _ subs =>
    if !isNonEmptyString targetLib || !isNonEmptyString targetPath then
      (false, [])
    else
      let newPagePath := computePagePathSegment flat.urlNumPfx flat.title
      let pagePath := assembleUrl [targetPath, parentPath, newPagePath]
      if !createOk pagePath then (false, [pagePath])
      else
        (true, pagePath :: saveToLibraryList createOk subs targetLib
          targetPath (assembleUrl [parentPath, newPagePath]))

/-- The subpage loop of `saveToLibrary` (lines 787-796): each subpage is
saved with the parent's accumulated path; one subpage's failure does not
affect the others (the iteratee never rejects). -/
def saveToLibraryList (createOk : String → Bool) (pages : List PageNode)
    (targetLib targetPath parentPath : String) : List String :=
  match pages with
  | [] => []
  | p :: ps =>
    (saveToLibrary createOk p targetLib targetPath parentPath).2 ++
      saveToLibraryList createOk ps targetLib targetPath parentPath
end

/-- Every sibling's creation attempts appear, in order, within the parent's
attempt list, regardless of the outcomes of the other siblings. -/
theorem saveToLibraryList_sublist (createOk : String → Bool)
    (targetLib targetPath parentPath : String) :
    ∀ (pages : List PageNode), ∀ p ∈ pages,
      ((saveToLibrary createOk p targetLib targetPath parentPath).2).Sublist
        (saveToLibraryList createOk pages targetLib targetPath parentPath) := by
  intro pages
  induction pages with
  | nil => simp
  | cons x xs ih =>
    intro p hp
    rcases List.mem_cons.mp hp with rfl | hp2
    · simp only [saveToLibraryList]
      exact List.sublist_append_left _ _
    · simp only [saveToLibraryList]
      exact (ih p hp2).trans (List.sublist_append_right _ _)

/-- C10: the writer's page-creation request carries the abort-if-exists flag
(the URL contains `abort=exists`), so a destination page already existing at
the computed path is never overwritten: a non-success creation makes that
subtree's save return `false` after the single attempted request, no
descendant of the failed node is attempted, and each sibling subtree's
requests are issued unaffected. -/
theorem saveToLibrary_abort_exists (createOk : String → Bool)
    (flat : FlatPage) (contents : Option String) (subs : List PageNode)
    (targetLib targetPath parentPath : String)
    (h1 : isNonEmptyString targetLib = true)
    (h2 : isNonEmptyString targetPath = true) :
    (∃ a b, createPageRequestUrl targetLib
        (assembleUrl [targetPath, parentPath,
          computePagePathSegment flat.urlNumPfx flat.title])
        (trimS flat.title) = a ++ "abort=exists" ++ b) ∧
    (createOk (assembleUrl [targetPath, parentPath,
        computePagePathSegment flat.urlNumPfx flat.title]) = false →
      saveToLibrary createOk (.mk flat contents subs) targetLib targetPath
          parentPath =
        (false, [assembleUrl [targetPath, parentPath,
          computePagePathSegment flat.urlNumPfx flat.title]])) ∧
    (createOk (assembleUrl [targetPath, parentPath,
        computePagePathSegment flat.urlNumPfx flat.title]) = true →
      ∀ p ∈ subs,
        ((saveToLibrary createOk p targetLib targetPath
            (assembleUrl [parentPath,
              computePagePathSegment flat.urlNumPfx flat.title])).2).Sublist
          ((saveToLibrary createOk (.mk flat contents subs) targetLib
            targetPath parentPath).2)) := by
  refine ⟨?_, ?_, ?_⟩
  · refine ⟨"https://" ++ targetLib ++ ".libretexts.org/@api/deki/pages/" ++
      "=" ++ encodeURIComponent (encodeURIComponent
        (assembleUrl [targetPath, parentPath,
          computePagePathSegment flat.urlNumPfx flat.title])) ++
      "/contents?title=" ++ encodeURIComponent (trimS flat.title) ++
      "&edittime=now&", "&dream.out.format=json", ?_⟩
    have hlit : ("&edittime=now&abort=exists&dream.out.format=json" : String) =
        "&edittime=now&" ++ "abort=exists" ++ "&dream.out.format=json" := by
      decide
    simp only [createPageRequestUrl, hlit, String.append_assoc]
  · intro hfail
    simp only [saveToLibrary, h1, h2, hfail]
    simp
  · intro hok p hp
    have hexp : saveToLibrary createOk (.mk flat contents subs) targetLib
        targetPath parentPath =
        (true, assembleUrl [targetPath, parentPath,
            computePagePathSegment flat.urlNumPfx flat.title] ::
          saveToLibraryList createOk subs targetLib targetPath
            (assembleUrl [parentPath,
              computePagePathSegment flat.urlNumPfx flat.title])) := by
      simp only [saveToLibrary, h1, h2, hok]
      simp
    rw [hexp]
    exact (saveToLibraryList_sublist createOk targetLib targetPath _ subs p
      hp).cons _

/-- Witness for C10: with a destination that refuses every creation (as with
`abort=exists` over existing pages), the subtree save issues exactly one
request at the computed path and returns `false`. -/
theorem saveToLibrary_abort_exists_witness :
    saveToLibrary (fun _ => false) (.mk exMutChild.flat none []) "target"
        "Book" "" =
      (false, [assembleUrl ["Book", "",
        computePagePathSegment exMutChild.flat.urlNumPfx
          exMutChild.flat.title]]) :=
  (saveToLibrary_abort_exists (fun _ => false) exMutChild.flat none []
    "target" "Book" "" (by decide) (by decide)).2.1 (by decide)
